import Mathlib

/-!
Verification development for the YTML conversion engine (`ytml.py`).

Strings are modelled as `List Char`.  Python string/regex operations used by
the source (`str.replace`, `str.strip`, `str.split`, `re.match`, `re.sub`)
are modelled by executable recursive functions that follow CPython's
left-to-right, greedy-with-backtracking semantics for exactly the patterns
appearing in the source.
-/

set_option linter.unusedVariables false

namespace TestYTML

/-- Strings of the model: a Python `str` is a sequence of characters. -/
abbrev Str := List Char

/-- Characters of a Lean string literal, as a model string. -/
def strL (s : String) : Str := s.data

/-- Model of Python's ASCII whitespace: the characters matched by the regex
class backslash-s and stripped by `str.strip()`. -/
def pyIsSpace (c : Char) : Bool :=
  c == ' ' || c == '\t' || c == '\n' || c == '\r' || c == '\x0b' || c == '\x0c'

/-- Model of Python `str.replace(t, rep)` for a one-character target `t`:
left-to-right replacement of every occurrence, without rescanning output. -/
def pyReplace1 (t : Char) (rep : Str) : Str → Str
  | [] => []
  | c :: rest =>
    if c = t then rep ++ pyReplace1 t rep rest else c :: pyReplace1 t rep rest

/-- The HTML-escape chain of `parse_children` (`ytml.py` line 271): the five
`str.replace` calls in source order, ampersand first. -/
def escape (v : Str) : Str :=
  pyReplace1 '\'' (strL ("&#39;"))
    (pyReplace1 '"' (strL ("&quot;"))
      (pyReplace1 '>' (strL ("&gt;"))
        (pyReplace1 '<' (strL ("&lt;"))
          (pyReplace1 '&' (strL ("&amp;")) v))))

/-- Model of `re.sub(r'  \n', '<br/>\n', value)` (`ytml.py` line 273):
left-to-right non-overlapping replacement of the literal three-character
pattern two-spaces-then-newline. -/
def replaceBr : Str → Str
  | [] => []
  | ' ' :: ' ' :: '\n' :: rest2 => strL ("<br/>\n") ++ replaceBr rest2
  | c :: rest => c :: replaceBr rest

/-- Model of Python `str.strip()`: drop leading and trailing whitespace. -/
def pyStrip (s : Str) : Str :=
  ((s.dropWhile pyIsSpace).reverse.dropWhile pyIsSpace).reverse

/-- Model of Python `str.split('\n')`: split at every newline, keeping empty
parts, always producing at least one part. -/
def splitNl : Str → List Str
  | [] => [[]]
  | c :: rest =>
    if c = '\n' then [] :: splitNl rest
    else
      match splitNl rest with
      | [] => [[c]]
      | p :: ps => (c :: p) :: ps

/-- Concatenation of a per-line rendering, modelling the accumulation loop of
`PrettyFormatter.output_indented_text`. -/
def catLines (g : Str → Str) : List Str → Str
  | [] => []
  | l :: ls => g l ++ catLines g ls

/-! ### The regex `\.(\S+)` / `#(\S+)` substitutions of `convert_attr` -/

/-- Scanner for `re.sub(r'\.(\S+)', 'class="\1"', attr)`: at each position, a
dot followed by a maximal nonempty run of non-whitespace characters is
rewritten; otherwise the scan advances one character.  Each recursive step
consumes at least one character, so fuel equal to the length suffices. -/
def subClassGo : Nat → Str → Str
  | 0, s => s
  | _ + 1, [] => []
  | fuel + 1, c :: rest =>
    if c = '.' then
      let tok := rest.takeWhile (fun x => !(pyIsSpace x))
      if tok.isEmpty then '.' :: subClassGo fuel rest
      else strL ("class=\x22") ++ tok ++ ['"'] ++ subClassGo fuel (rest.drop tok.length)
    else c :: subClassGo fuel rest

/-- Model of `re.sub(r'\.(\S+)', 'class="\1"', attr)` (`ytml.py` line 225). -/
def subClass (a : Str) : Str := subClassGo a.length a

/-- Scanner for `re.sub(r'#(\S+)', 'id="\1"', attr)`, like `subClassGo`. -/
def subIdGo : Nat → Str → Str
  | 0, s => s
  | _ + 1, [] => []
  | fuel + 1, c :: rest =>
    if c = '#' then
      let tok := rest.takeWhile (fun x => !(pyIsSpace x))
      if tok.isEmpty then '#' :: subIdGo fuel rest
      else strL ("id=\x22") ++ tok ++ ['"'] ++ subIdGo fuel (rest.drop tok.length)
    else c :: subIdGo fuel rest

/-- Model of `re.sub(r'#(\S+)', 'id="\1"', attr)` (`ytml.py` line 226). -/
def subId (a : Str) : Str := subIdGo a.length a

/-! ### The template-variable substitution regex of `parse_children` -/

/-- After the candidate captured group, the pattern continues with greedy
whitespace and the two closing braces; returns the continuation of the scan
on success. -/
def tailMatch (u : Str) : Option Str :=
  match u.dropWhile pyIsSpace with
  | '}' :: '}' :: cont => some cont
  | _ => none

/-- Backtracking of the greedy nonempty capture of the variable name: try the
longest candidate first, shrinking until the closing braces match. -/
def findK (s : Str) : Nat → Option (Nat × Str)
  | 0 => none
  | k + 1 =>
    match tailMatch (s.drop (k + 1)) with
    | some cont => some (k + 1, cont)
    | none => findK s k

/-- Scanner for `re.sub(r'{{\s*(\S+)\s*}}', start + name + end, value)`
(`ytml.py` line 269).  At two open braces it consumes greedy whitespace, takes
the maximal non-whitespace run as the candidate capture and backtracks with
`findK`; on failure the scan advances one character, as `re.sub` does.  Each
step consumes at least one character, so fuel equal to the length suffices. -/
def pysubVarGo (sd ed : Str) : Nat → Str → Str
  | 0, s => s
  | _ + 1, [] => []
  | fuel + 1, c :: rest =>
    if c = '{' then
      match rest with
      | '{' :: rest2 =>
        let s := rest2.dropWhile pyIsSpace
        let t := s.takeWhile (fun x => !(pyIsSpace x))
        (match findK s t.length with
         | some (k, cont) => sd ++ s.take k ++ ed ++ pysubVarGo sd ed fuel cont
         | none => c :: pysubVarGo sd ed fuel rest)
      | _ => c :: pysubVarGo sd ed fuel rest
    else c :: pysubVarGo sd ed fuel rest

/-- Model of the template-variable substitution of `parse_children`. -/
def pysubVar (sd ed : Str) (s : Str) : Str := pysubVarGo sd ed s.length s

/-! ### The key-parsing regex of `parse_dict` -/

/-- The regex anchor `$` of Python: end of string, or just before one final
newline. -/
def dollarOk : Str → Bool
  | [] => true
  | ['\n'] => true
  | _ => false

/-- Whether position `j` of `rest` carries the closing parenthesis of the key
pattern followed by an `$`-acceptable tail. -/
def closeParenAt (rest : Str) (j : Nat) : Bool :=
  match rest.drop j with
  | ')' :: t => dollarOk t
  | _ => false

/-- Backtracking of the greedy `(.*)` group: try the longest newline-free
prefix first, shrinking until a closing parenthesis with `$` fits. -/
def findClose (rest : Str) : Nat → Option Nat
  | 0 => if closeParenAt rest 0 then some 0 else none
  | j + 1 => if closeParenAt rest (j + 1) then some (j + 1) else findClose rest j

/-- Match of the suffix `(.*)\)$` of the key regex against the text following
the opening parenthesis, returning the captured attribute group. -/
def matchDotStarClose (rest : Str) : Option Str :=
  match findClose rest ((rest.takeWhile (fun c => c != '\n')).length) with
  | some j => some (rest.take j)
  | none => none

/-- Model of `re.match(r'([^\(\)\s]+)?\s?\((.*)\)$', key)` (`ytml.py` line
176): the optional greedy name group is the maximal leading run of
non-parenthesis non-whitespace characters (shorter choices can never be
followed by an opening parenthesis, so backtracking it never helps), then an
optional single whitespace, the opening parenthesis, and the greedy
attribute group.  Returns `(group 1, group 2)` on success. -/
def reMatchKey (key : Str) : Option (Option Str × Str) :=
  let p := key.takeWhile (fun c => c != '(' && c != ')' && !(pyIsSpace c))
  let g1 : Option Str := if p.isEmpty then none else some p
  match key.drop p.length with
  | [] => none
  | '(' :: r => (matchDotStarClose r).map (fun g2 => (g1, g2))
  | c :: rest =>
    match rest with
    | '(' :: r =>
      if pyIsSpace c then (matchDotStarClose r).map (fun g2 => (g1, g2)) else none
    | _ => none

/-! ### PrettyFormatter -/

/-- State of `PrettyFormatter`: the fixed indent unit width and the current
indentation level. -/
structure PrettyFormatter where
  indent_len : Nat
  indent : Nat
deriving DecidableEq, Repr

/-- `PrettyFormatter.apply_condition`: conjunction of a condition list. -/
def apply_condition (conditions : List Bool) : Bool := conditions.all id

/-- `PrettyFormatter.add_indent`. -/
def PrettyFormatter.add_indent (f : PrettyFormatter) (conditions : List Bool) :
    PrettyFormatter :=
  if apply_condition conditions then { f with indent := f.indent + 1 } else f

/-- `PrettyFormatter.del_indent`: decrement, a no-op at level zero. -/
def PrettyFormatter.del_indent (f : PrettyFormatter) (conditions : List Bool) :
    PrettyFormatter :=
  if apply_condition conditions ∧ 0 < f.indent then { f with indent := f.indent - 1 }
  else f

/-- `PrettyFormatter.get_add_indent`: the current level plus an offset when
the conditions hold, else the current level (a Python `int`, so it may go
negative). -/
def PrettyFormatter.get_add_indent (f : PrettyFormatter) (add : Int)
    (conditions : List Bool) : Int :=
  if apply_condition conditions then (f.indent : Int) + add else (f.indent : Int)

/-- `PrettyFormatter.output_space`: spaces for the given level (negative
level means the current one), or nothing when the conditions fail. -/
def PrettyFormatter.output_space (f : PrettyFormatter) (conditions : List Bool)
    (level : Int) : Str :=
  if apply_condition conditions then
    List.replicate (f.indent_len * (if 0 ≤ level then level.toNat else f.indent)) ' '
  else []

/-- `PrettyFormatter.output_newline`. -/
def PrettyFormatter.output_newline (f : PrettyFormatter) (conditions : List Bool) :
    Str :=
  if apply_condition conditions then ['\n'] else []

/-- `PrettyFormatter.output_indented_text`: when the conditions hold, strip
the text and emit every line at the current indentation with a trailing
newline; otherwise return the text unchanged. -/
def PrettyFormatter.output_indented_text (f : PrettyFormatter) (text : Str)
    (conditions : List Bool) : Str :=
  if apply_condition conditions then
    catLines (fun line => f.output_space [] (-1) ++ line ++ ['\n'])
      (splitNl (pyStrip text))
  else text

/-! ### Dialects and their class attributes -/

/-- The two dialect classes of the source: the base `YTML` class and the
`YTMLJinja` subclass. -/
inductive Dialect where
  | ytml : Dialect
  | ytmlJinja : Dialect

/-- `YTML.void_tags`, shared by both dialects. -/
def void_tags : List Str :=
  [strL ("area"), strL ("base"), strL ("br"), strL ("col"), strL ("embed"),
   strL ("hr"), strL ("img"), strL ("input"), strL ("link"), strL ("meta"),
   strL ("param"), strL ("source"), strL ("track"), strL ("wbr")]

/-- `template_tags`: empty in the base class, overridden by `YTMLJinja`. -/
def template_tags : Dialect → List Str
  | .ytml => []
  | .ytmlJinja =>
    [strL ("for"), strL ("if"), strL ("then"), strL ("elif"), strL ("else"),
     strL ("block"), strL ("filter"), strL ("macro"), strL ("call"), strL ("raw")]

/-- `template_void_tags`: empty in the base class, overridden by `YTMLJinja`. -/
def template_void_tags : Dialect → List Str
  | .ytml => []
  | .ytmlJinja => [strL ("include"), strL ("extends"), strL ("set")]

/-- `template_tag_convert`: the directive table, a lookup from tag name to
(start keyword, end keyword, use-attributes). Empty in the base class. -/
def template_tag_convert : Dialect → Str → Option (Str × Str × Bool)
  | .ytml, _ => none
  | .ytmlJinja, n =>
    List.lookup n
      [(strL ("for"), (strL ("for"), strL ("endfor"), true)),
       (strL ("if"), (strL ("if"), strL ("endif"), true)),
       (strL ("then"), (strL (""), strL (""), false)),
       (strL ("elif"), (strL ("elif"), strL (""), true)),
       (strL ("else"), (strL ("else"), strL (""), false)),
       (strL ("block"), (strL ("block"), strL ("endblock"), true)),
       (strL ("filter"), (strL ("filter"), strL ("endfilter"), true)),
       (strL ("macro"), (strL ("macro"), strL ("endmacro"), true)),
       (strL ("call"), (strL ("call"), strL ("endcall"), true)),
       (strL ("raw"), (strL ("raw"), strL ("endraw"), true)),
       (strL ("include"), (strL ("include"), strL (""), true)),
       (strL ("extends"), (strL ("extends"), strL (""), true)),
       (strL ("set"), (strL ("set"), strL (""), true))]

/-- `html_tag_start`, shared by both dialects. -/
def html_tag_start : Str := strL ("<")

/-- `html_tag_end`. -/
def html_tag_end : Str := strL (">")

/-- `html_tag_end_close`. -/
def html_tag_end_close : Str := strL ("</")

/-- `html_tag_end_self_close`. -/
def html_tag_end_self_close : Str := strL ("/>")

/-- `template_tag_start`: empty in the base class, overridden by `YTMLJinja`. -/
def template_tag_start : Dialect → Str
  | .ytml => []
  | .ytmlJinja => strL ("\x7b% ")

/-- `template_tag_end`. -/
def template_tag_end : Dialect → Str
  | .ytml => []
  | .ytmlJinja => strL (" %\x7d")

/-- `template_tag_close`. -/
def template_tag_close : Dialect → Str
  | .ytml => []
  | .ytmlJinja => strL ("\x7b% ")

/-- `template_tag_self_close`. -/
def template_tag_self_close : Dialect → Str
  | .ytml => []
  | .ytmlJinja => strL (" %\x7d")

/-- `template_variable_start`: the empty string in the base class, and not
overridden by `YTMLJinja`, so inherited as the empty string there too. -/
def template_variable_start : Dialect → Str
  | .ytml => []
  | .ytmlJinja => []

/-- `template_variable_end`: empty in both dialects, like
`template_variable_start`. -/
def template_variable_end : Dialect → Str
  | .ytml => []
  | .ytmlJinja => []

/-! ### Flags -/

/-- The mutable flags mapping of `init_flags`, as a record. -/
structure Flags where
  isvoid : Bool
  tagname : Str
  starttagname : Str
  endtagname : Str
  attr : Str
  attrspace : Bool
  tagstart : Str
  tagend : Str
  closetagstart : Str
  longcontent : Bool
  usestart : Bool
  useindent : Bool
  convertattr : Bool
  useattr : Bool
  forcetemplate : Bool

/-- `YTML.init_flags`. -/
def init_flags : Flags where
  isvoid := false
  tagname := []
  starttagname := []
  endtagname := []
  attr := []
  attrspace := true
  tagstart := []
  tagend := []
  closetagstart := []
  longcontent := false
  usestart := true
  useindent := true
  convertattr := true
  useattr := true
  forcetemplate := false

/-! ### Input trees -/

mutual

/-- The value of an element descriptor: `None`, a string, or a child list. -/
inductive Value where
  | vnull : Value
  | vstr (s : Str) : Value
  | vlist (l : ItemList) : Value

/-- An ordered sequence of single-key mappings (key paired with its value). -/
inductive ItemList where
  | nil : ItemList
  | cons (key : Str) (value : Value) (rest : ItemList) : ItemList

end

/-- Python's `value is not None` test used by `output_start_tag`. -/
def is_not_none : Value → Bool
  | .vnull => false
  | _ => true

/-! ### The conversion pipeline -/

/-- `YTML.parse_dict` (key analysis part): match the key against the key
regex, apply the empty-name-is-div rule, then the leading-sigil rule
(`tagname[0] == '$'` strips the sigil and forces directive treatment). -/
def parse_dict (key : Str) (flags : Flags) : Flags :=
  let flags :=
    match reMatchKey key with
    | some (g1, g2) =>
      let tn := match g1 with | none => strL ("div") | some t => t
      { flags with tagname := tn, attr := g2 }
    | none =>
      if key.isEmpty then { flags with tagname := strL ("div") }
      else { flags with tagname := key }
  if flags.tagname.head? = some '$' then
    { flags with tagname := flags.tagname.tail, forcetemplate := true }
  else flags

/-- `YTML.set_tag_type`: the base-dialect classifier.  A forced template tag
is an error here; a void tag self-closes; anything else is a normal element. -/
def set_tag_type_html (flags : Flags) : Except Str Flags :=
  if flags.forcetemplate then
    .error (strL ("not supported template tag: ") ++ flags.tagname)
  else if flags.tagname ∈ void_tags then
    .ok { flags with
          isvoid := true
          tagend := html_tag_end_self_close
          tagstart := html_tag_start
          starttagname := flags.tagname
          endtagname := flags.tagname }
  else
    .ok { flags with
          tagend := html_tag_end
          closetagstart := html_tag_end_close
          tagstart := html_tag_start
          starttagname := flags.tagname
          endtagname := flags.tagname }

/-- Dialect dispatch of `set_tag_type`: the base class classifies HTML tags;
`YTMLJinja.set_tag_type` first checks the template tag sets (with the
defensive table lookup) and otherwise delegates to the base class. -/
def set_tag_type (d : Dialect) (flags : Flags) : Except Str Flags :=
  match d with
  | .ytml => set_tag_type_html flags
  | .ytmlJinja =>
    if flags.tagname ∈ template_tags .ytmlJinja then
      match template_tag_convert .ytmlJinja flags.tagname with
      | none => .error (strL ("not supported template tag: ") ++ flags.tagname)
      | some (o, c, ua) =>
        .ok { flags with
              tagstart := template_tag_start .ytmlJinja
              tagend := template_tag_end .ytmlJinja
              closetagstart := template_tag_close .ytmlJinja
              starttagname := o
              endtagname := c
              useindent := !c.isEmpty
              useattr := ua
              convertattr := false }
    else if flags.tagname ∈ template_void_tags .ytmlJinja then
      match template_tag_convert .ytmlJinja flags.tagname with
      | none => .error (strL ("not supported template tag: ") ++ flags.tagname)
      | some (o, c, ua) =>
        .ok { flags with
              isvoid := true
              tagstart := template_tag_start .ytmlJinja
              tagend := template_tag_self_close .ytmlJinja
              starttagname := o
              useattr := ua
              convertattr := false }
    else set_tag_type_html flags

/-- `YTML.convert_attr`: rewrite the class/id shorthands when enabled, then
prefix one space to a nonempty attribute string; without `useattr` the
attribute string is cleared. -/
def convert_attr (flags : Flags) : Flags :=
  if flags.useattr then
    let a := if flags.convertattr then subId (subClass flags.attr) else flags.attr
    let a := if flags.attrspace ∧ ¬a.isEmpty then ' ' :: a else a
    { flags with attr := a }
  else { flags with attr := [] }

/-- `YTML.output_start_tag`: reject content on a void tag, emit the indented
start tag (or record that no start tag is used), and a newline after a void
tag in pretty mode. -/
def output_start_tag (value : Value) (flags : Flags) (pretty : Bool)
    (f : PrettyFormatter) : Except Str (Str × Flags) :=
  if flags.isvoid ∧ is_not_none value then
    .error (strL ("void tag must have no content"))
  else
    let (res, flags) :=
      if ¬flags.starttagname.isEmpty then
        (f.output_space [pretty] (f.get_add_indent (-1) [pretty, !flags.useindent]) ++
           flags.tagstart ++ flags.starttagname ++ flags.attr ++ flags.tagend,
         flags)
      else ([], { flags with usestart := false })
    .ok (res ++ (if flags.isvoid then f.output_newline [pretty] else []), flags)

/-- `YTML.output_endtag`: dedent under the recorded conditions, then emit the
end tag (indented only for long content) unless the end name is empty. -/
def output_endtag (flags : Flags) (pretty : Bool) (f : PrettyFormatter) :
    Str × PrettyFormatter :=
  let f := f.del_indent [pretty, flags.longcontent, flags.useindent]
  let res :=
    if ¬flags.endtagname.isEmpty then
      f.output_space [pretty, flags.longcontent] (-1) ++
        flags.closetagstart ++ flags.endtagname ++ flags.tagend ++
        f.output_newline [pretty]
    else []
  (res, f)

mutual

/-- `YTML.obj_to_html`: walk the item sequence; for each item run
`parse_dict`, `set_tag_type`, `convert_attr`, `output_start_tag`, then (for
non-void tags) `parse_children` and `output_endtag`, concatenating output and
threading the shared formatter. -/
def obj_to_html (d : Dialect) (obj : ItemList) (pretty : Bool)
    (f : PrettyFormatter) : Except Str (Str × PrettyFormatter) :=
  match obj with
  | .nil => .ok ([], f)
  | .cons key value rest =>
    let flags := parse_dict key init_flags
    match set_tag_type d flags with
    | .error e => .error e
    | .ok flags =>
      let flags := convert_attr flags
      match output_start_tag value flags pretty f with
      | .error e => .error e
      | .ok (out1, flags) =>
        if flags.isvoid then
          match obj_to_html d rest pretty f with
          | .error e => .error e
          | .ok (outR, f) => .ok (out1 ++ outR, f)
        else
          match parse_children d value flags pretty f with
          | .error e => .error e
          | .ok (out2, flags, f) =>
            let (out3, f) := output_endtag flags pretty f
            match obj_to_html d rest pretty f with
            | .error e => .error e
            | .ok (outR, f) => .ok (out1 ++ out2 ++ out3 ++ outR, f)

/-- `YTML.parse_children`: a list value recurses into `obj_to_html` after a
conditional newline and indent; a string value gets template-variable
substitution, HTML escaping and the hard-break rewrite, then multi-line
content switches to long-content block formatting; `None` is empty content. -/
def parse_children (d : Dialect) (value : Value) (flags : Flags) (pretty : Bool)
    (f : PrettyFormatter) : Except Str (Str × Flags × PrettyFormatter) :=
  match value with
  | .vlist l =>
    let flags := { flags with longcontent := true }
    let pre := f.output_newline [pretty, flags.usestart]
    let f := f.add_indent [pretty, flags.useindent, flags.usestart]
    (match obj_to_html d l pretty f with
     | .error e => .error e
     | .ok (out, f) => .ok (pre ++ out, flags, f))
  | .vstr s =>
    let v := pysubVar (template_variable_start d) (template_variable_end d) s
    let v := escape v
    let v := replaceBr v
    if v.contains '\n' then
      let pre := f.output_newline [pretty]
      let f := f.add_indent [pretty]
      let flags := { flags with longcontent := true }
      .ok (pre ++ f.output_indented_text v [pretty, flags.longcontent] ++
             f.output_newline [pretty, flags.longcontent], flags, f)
    else
      .ok (f.output_indented_text v [pretty, flags.longcontent] ++
             f.output_newline [pretty, flags.longcontent], flags, f)
  | .vnull => .ok ([], flags, f)

end

/-- Deletion of all whitespace characters from a string, the comparison used
to state that pretty and compact output agree up to whitespace. -/
def stripWs (s : Str) : Str := s.filter (fun c => !(pyIsSpace c))

/-- Specification of HTML escaping for one character: each of the five
special characters maps to its entity, every other character to itself. -/
def escCharSpec (c : Char) : Str :=
  if c = '&' then strL ("&amp;")
  else if c = '<' then strL ("&lt;")
  else if c = '>' then strL ("&gt;")
  else if c = '"' then strL ("&quot;")
  else if c = '\'' then strL ("&#39;")
  else [c]

/-- Specification of HTML escaping of a string: every occurrence of a special
character escaped exactly once, independently of its neighbours. -/
def escSpecMap : Str → Str
  | [] => []
  | c :: rest => escCharSpec c ++ escSpecMap rest

/-! ### Helper lemmas about the string primitives -/

theorem takeWhile_all_append {p : Char → Bool} {w : Str} {x : Char} (r : Str)
    (hw : ∀ c ∈ w, p c = true) (hx : p x = false) :
    (w ++ x :: r).takeWhile p = w := by
  induction w with
  | nil => simp [List.takeWhile_cons, hx]
  | cons a w ih =>
    have ha : p a = true := hw a (by simp)
    simp only [List.cons_append, List.takeWhile_cons, ha, if_true]
    rw [ih (fun c hc => hw c (by simp [hc]))]

theorem dropWhile_all_append {p : Char → Bool} {w : Str} {x : Char} (r : Str)
    (hw : ∀ c ∈ w, p c = true) (hx : p x = false) :
    (w ++ x :: r).dropWhile p = x :: r := by
  induction w with
  | nil => simp [List.dropWhile_cons, hx]
  | cons a w ih =>
    have ha : p a = true := hw a (by simp)
    simp only [List.cons_append, List.dropWhile_cons, ha, if_true]
    exact ih (fun c hc => hw c (by simp [hc]))

theorem takeWhile_all_self {p : Char → Bool} {l : Str}
    (h : ∀ c ∈ l, p c = true) : l.takeWhile p = l := by
  induction l with
  | nil => rfl
  | cons a l ih =>
    have ha : p a = true := h a (by simp)
    simp only [List.takeWhile_cons, ha, if_true]
    rw [ih (fun c hc => h c (by simp [hc]))]

theorem pyIsSpace_nl : pyIsSpace '\n' = true := by decide

theorem pyIsSpace_not_of_ne (c : Char) (h1 : c ≠ ' ') (h2 : c ≠ '\t')
    (h3 : c ≠ '\n') (h4 : c ≠ '\r') (h5 : c ≠ '\x0b') (h6 : c ≠ '\x0c') :
    pyIsSpace c = false := by
  simp [pyIsSpace, h1, h2, h3, h4, h5, h6]

/-! ### Claim C1 -/

/-- Claim C1: rendering the tree for
`[html(lang="ja") -> [body -> [h1 -> "Hello"]]]` with the base HTML dialect
in pretty mode at indent width 4 produces exactly the expected five-line
text, with start tags indented four spaces per depth, the single-line string
inline on the h1 line, and each close tag aligned with its open tag. -/
theorem c1_end_to_end :
    obj_to_html .ytml
      (.cons (strL ("html(lang=\x22ja\x22)"))
        (.vlist (.cons (strL ("body"))
          (.vlist (.cons (strL ("h1")) (.vstr (strL ("Hello"))) .nil)) .nil))
        .nil)
      true ⟨4, 0⟩ =
    .ok (strL ("<html lang=\x22ja\x22>\n    <body>\n        <h1>Hello</h1>\n    </body>\n</html>\n"),
      ⟨4, 0⟩) := by
  rfl

/-! ### Claim C3 -/

/-- Counterexample to claim C3: rendering `[(.a.b) -> null]` yields
`<div class="a.b"></div>` — the greedy `\S+` swallows `a.b` as one token, so
the output does not contain the token `class="a"` that the claim requires. -/
theorem c3_counterexample :
    obj_to_html .ytml (.cons (strL ("(.a.b)")) .vnull .nil) false ⟨4, 0⟩ =
      .ok (strL ("<div class=\x22a.b\x22></div>"), ⟨4, 0⟩) ∧
    ¬ (strL ("class=\x22a\x22") <:+: strL ("<div class=\x22a.b\x22></div>")) := by
  constructor
  · rfl
  · decide

/-- Claim C3 (amended): the `.token` and `#token` rewrites are greedy over
non-whitespace runs and the parenthesis capture is greedy to the last closing
parenthesis, so `(.a.b)` yields the single attribute `class="a.b"`,
`(.a)(.b)` captures `.a)(.b` and yields `class="a)(.b"`, while `(#x)` with
content `"t"` yields `id="x"` as the claim states. -/
theorem c3_amended :
    obj_to_html .ytml (.cons (strL ("(.a.b)")) .vnull .nil) false ⟨4, 0⟩ =
      .ok (strL ("<div class=\x22a.b\x22></div>"), ⟨4, 0⟩) ∧
    obj_to_html .ytml (.cons (strL ("(.a)(.b)")) .vnull .nil) false ⟨4, 0⟩ =
      .ok (strL ("<div class=\x22a)(.b\x22></div>"), ⟨4, 0⟩) ∧
    obj_to_html .ytml (.cons (strL ("(#x)")) (.vstr (strL ("t"))) .nil) false ⟨4, 0⟩ =
      .ok (strL ("<div id=\x22x\x22>t</div>"), ⟨4, 0⟩) := by
  exact ⟨rfl, rfl, rfl⟩

/-! ### Claim C7 -/

/-- Claim C7: a key beginning with the sigil `$` has the sigil stripped and is
forced to directive treatment; when the stripped name has no directive entry
the conversion fails with the unknown-directive error and never falls back to
a plain HTML element.  In the base dialect every forced directive fails; in
the Jinja dialect every forced name outside the directive sets fails. -/
theorem c7_forced_directive :
    (∀ (rest : Str) (v : Value) (pretty : Bool) (L i : Nat),
      reMatchKey ('$' :: rest) = none →
      obj_to_html .ytml (.cons ('$' :: rest) v .nil) pretty ⟨L, i⟩ =
        .error (strL ("not supported template tag: ") ++ rest)) ∧
    (∀ (rest : Str) (v : Value) (pretty : Bool) (L i : Nat),
      reMatchKey ('$' :: rest) = none →
      rest ∉ template_tags .ytmlJinja →
      rest ∉ template_void_tags .ytmlJinja →
      obj_to_html .ytmlJinja (.cons ('$' :: rest) v .nil) pretty ⟨L, i⟩ =
        .error (strL ("not supported template tag: ") ++ rest)) := by
  constructor
  · intro rest v pretty L i hm
    simp [obj_to_html, parse_dict, hm, set_tag_type, set_tag_type_html, init_flags]
  · intro rest v pretty L i hm h1 h2
    simp [obj_to_html, parse_dict, hm, set_tag_type, set_tag_type_html, init_flags,
      h1, h2]

/-- Witness for C7 at the concrete input of the claim: `$nonexistent` with a
null value fails with the unknown-directive error in both dialects. -/
theorem c7_forced_directive_witness :
    obj_to_html .ytml (.cons (strL ("$nonexistent")) .vnull .nil) false ⟨4, 0⟩ =
      .error (strL ("not supported template tag: ") ++ strL ("nonexistent")) ∧
    obj_to_html .ytmlJinja (.cons (strL ("$nonexistent")) .vnull .nil) false ⟨4, 0⟩ =
      .error (strL ("not supported template tag: ") ++ strL ("nonexistent")) := by
  constructor
  · exact c7_forced_directive.1 (strL ("nonexistent")) .vnull false 4 0 (by decide)
  · exact c7_forced_directive.2 (strL ("nonexistent")) .vnull false 4 0 (by decide)
      (by decide) (by decide)

/-! ### Claim C2 -/

/-- The fourteen void tag names all fail the key regex, are nonempty and do
not start with the sigil. -/
theorem void_tags_facts :
    ∀ name ∈ void_tags,
      reMatchKey name = none ∧ name.isEmpty = false ∧ name.head? ≠ some '$' := by
  decide

/-- Claim C2: for every tag name in the fixed void-element set, rendering the
one-element sequence with the base HTML dialect succeeds exactly when the
value is null, producing a single self-closing tag (plus a newline in pretty
mode) with no content and no end tag; any non-null value fails with the
void-content validation error. -/
theorem c2_void_tags (name : Str) (h : name ∈ void_tags) (v : Value)
    (pretty : Bool) (L : Nat) :
    (v = .vnull →
      obj_to_html .ytml (.cons name v .nil) pretty ⟨L, 0⟩ =
        .ok (html_tag_start ++ name ++ html_tag_end_self_close ++
               (if pretty then ['\n'] else []), ⟨L, 0⟩)) ∧
    (v ≠ .vnull →
      obj_to_html .ytml (.cons name v .nil) pretty ⟨L, 0⟩ =
        .error (strL ("void tag must have no content"))) := by
  obtain ⟨hm, hne, hd⟩ := void_tags_facts name h
  constructor
  · rintro rfl
    simp [obj_to_html, parse_dict, hm, hne, hd, set_tag_type, set_tag_type_html,
      init_flags, h, convert_attr, subClass, subClassGo, subId, subIdGo,
      output_start_tag, is_not_none, apply_condition,
      PrettyFormatter.output_space, PrettyFormatter.get_add_indent,
      PrettyFormatter.output_newline]
  · intro hv
    cases v with
    | vnull => exact absurd rfl hv
    | vstr s =>
      simp [obj_to_html, parse_dict, hm, hne, hd, set_tag_type, set_tag_type_html,
        init_flags, h, convert_attr, subClass, subClassGo, subId, subIdGo,
        output_start_tag, is_not_none]
    | vlist l =>
      simp [obj_to_html, parse_dict, hm, hne, hd, set_tag_type, set_tag_type_html,
        init_flags, h, convert_attr, subClass, subClassGo, subId, subIdGo,
        output_start_tag, is_not_none]

/-- Witness for C2 at the void tag `br`: a null value renders as `<br/>` with
a pretty-mode newline, a string value fails with the void-content error. -/
theorem c2_void_tags_witness :
    strL ("br") ∈ void_tags ∧
    obj_to_html .ytml (.cons (strL ("br")) .vnull .nil) true ⟨4, 0⟩ =
      .ok (strL ("<br/>\n"), ⟨4, 0⟩) ∧
    obj_to_html .ytml (.cons (strL ("br")) (.vstr (strL ("x"))) .nil) true ⟨4, 0⟩ =
      .error (strL ("void tag must have no content")) := by
  refine ⟨by decide, ?_, ?_⟩
  · have := (c2_void_tags (strL ("br")) (by decide) .vnull true 4).1 rfl
    simpa using this
  · exact (c2_void_tags (strL ("br")) (by decide) (.vstr (strL ("x"))) true 4).2
      (fun hh => Value.noConfusion hh)

/-! ### A shared evaluation of compact-mode rendering of one string item -/

/-- Compact-mode rendering of a single `p` element with string content: the
output is the start tag, the processed content (variable substitution, then
escaping, then the hard-break rewrite) verbatim, and the end tag; the
formatter is untouched. -/
theorem render_str_compact (d : Dialect) (s : Str) (L i : Nat) :
    obj_to_html d (.cons (strL ("p")) (.vstr s) .nil) false ⟨L, i⟩ =
      .ok (strL ("<p>") ++
             replaceBr (escape (pysubVar (template_variable_start d)
               (template_variable_end d) s)) ++ strL ("</p>"), ⟨L, i⟩) := by
  have hp : reMatchKey (['p'] : Str) = none := rfl
  have hnil : ∀ (d' : Dialect) (pr : Bool) (f : PrettyFormatter),
      obj_to_html d' .nil pr f = .ok ([], f) := fun _ _ _ => rfl
  have hnv : (['p'] : Str) ∉ void_tags := by decide
  have hh : (['p'] : Str).head? ≠ some '$' := by decide
  have hnt : (['p'] : Str) ∉ template_tags .ytmlJinja := by decide
  have hntv : (['p'] : Str) ∉ template_void_tags .ytmlJinja := by decide
  cases d <;>
    (unfold obj_to_html parse_children
     simp only [template_variable_start, template_variable_end]
     cases hc : (replaceBr (escape (pysubVar [] [] s))).contains '\n' <;>
       simp [hc, hp, hnil, hnv, hh, hnt, hntv, parse_dict, init_flags, set_tag_type,
         set_tag_type_html, convert_attr, subClass, subClassGo, subId, subIdGo,
         output_start_tag, is_not_none, output_endtag, apply_condition,
         PrettyFormatter.output_space, PrettyFormatter.output_newline,
         PrettyFormatter.output_indented_text, PrettyFormatter.add_indent,
         PrettyFormatter.del_indent, PrettyFormatter.get_add_indent,
         html_tag_start, html_tag_end, html_tag_end_close, strL])

/-! ### Lemmas about the escaping chain -/

theorem pyReplace1_append (t : Char) (rep a b : Str) :
    pyReplace1 t rep (a ++ b) = pyReplace1 t rep a ++ pyReplace1 t rep b := by
  induction a with
  | nil => rfl
  | cons c a ih => by_cases hc : c = t <;> simp [pyReplace1, hc, ih]

theorem escape_append (a b : Str) : escape (a ++ b) = escape a ++ escape b := by
  simp [escape, pyReplace1_append]

theorem escape_single (c : Char) : escape [c] = escCharSpec c := by
  by_cases h1 : c = '&'
  · subst h1; rfl
  by_cases h2 : c = '<'
  · subst h2; rfl
  by_cases h3 : c = '>'
  · subst h3; rfl
  by_cases h4 : c = '"'
  · subst h4; rfl
  by_cases h5 : c = '\''
  · subst h5; rfl
  simp [escape, pyReplace1, escCharSpec, h1, h2, h3, h4, h5]

/-- The escaping chain equals the per-character specification: since the
ampersand is replaced first and no later entity introduces a character that
an earlier pass rewrites, the chain acts independently on each character. -/
theorem escape_eq_escSpecMap (s : Str) : escape s = escSpecMap s := by
  induction s with
  | nil => rfl
  | cons c rest ih =>
    have hsplit : (c :: rest : Str) = [c] ++ rest := rfl
    rw [hsplit, escape_append, ih, escape_single]
    rfl

theorem nl_not_mem_escCharSpec {c : Char} (h : c ≠ '\n') : '\n' ∉ escCharSpec c := by
  unfold escCharSpec
  split_ifs <;> first | decide | simp [Ne.symm h]

theorem nl_not_mem_escSpecMap {s : Str} (h : '\n' ∉ s) : '\n' ∉ escSpecMap s := by
  induction s with
  | nil => simp [escSpecMap]
  | cons c rest ih =>
    have hc : c ≠ '\n' := fun hh => h (hh ▸ List.mem_cons_self c rest)
    have hr := ih (fun hm => h (List.mem_cons_of_mem _ hm))
    simp only [escSpecMap, List.mem_append]
    exact fun hor => hor.elim (fun hx => nl_not_mem_escCharSpec hc hx) hr

theorem pysubVarGo_no_brace (sd ed : Str) (fuel : Nat) :
    ∀ (s : Str), '{' ∉ s → pysubVarGo sd ed fuel s = s := by
  induction fuel with
  | zero => intro s h; rfl
  | succ fuel ih =>
    intro s h
    cases s with
    | nil => rfl
    | cons c rest =>
      have hc : c ≠ '{' := fun hh => h (hh ▸ List.mem_cons_self c rest)
      have hr : '{' ∉ rest := fun hm => h (List.mem_cons_of_mem _ hm)
      simp [pysubVarGo, hc, ih rest hr]

theorem pysubVar_no_brace {s : Str} (sd ed : Str) (h : '{' ∉ s) :
    pysubVar sd ed s = s :=
  pysubVarGo_no_brace sd ed s.length s h

theorem replaceBr_no_nl (s : Str) (h : '\n' ∉ s) : replaceBr s = s := by
  induction s using replaceBr.induct with
  | case1 => rfl
  | case2 rest2 ih => simp at h
  | case3 c rest hpat ih =>
    have hr : '\n' ∉ rest := fun hm => h (List.mem_cons_of_mem _ hm)
    rw [replaceBr.eq_def]
    split
    · rename_i heq
      exact absurd heq (List.cons_ne_nil _ _)
    · rename_i rest2 heq
      rw [heq] at h
      simp at h
    · rename_i c2 rest2 hpat2 heq
      injection heq with h1 h2
      subst h1
      subst h2
      rw [ih hr]

/-! ### Claim C5 -/

/-- Claim C5: rendering a string value HTML-escapes exactly the five
characters ampersand, less-than, greater-than, double quote and single
quote, each occurrence exactly once with the ampersand replaced first, so no
entity introduced by the other replacements is double-escaped.  Stated for
strings without braces or newlines so that the orthogonal variable and
hard-break rewrites do not fire. -/
theorem c5_escape_exactly_once (s : Str) (h1 : '{' ∉ s) (h2 : '\n' ∉ s)
    (L i : Nat) :
    obj_to_html .ytml (.cons (strL ("p")) (.vstr s) .nil) false ⟨L, i⟩ =
      .ok (strL ("<p>") ++ escSpecMap s ++ strL ("</p>"), ⟨L, i⟩) := by
  rw [render_str_compact, pysubVar_no_brace _ _ h1, escape_eq_escSpecMap,
    replaceBr_no_nl _ (nl_not_mem_escSpecMap h2)]

/-- Witness for C5 at the claim's example: `a<b & c` renders with content
`a&lt;b &amp; c` — the ampersand of `&lt;` is not escaped again. -/
theorem c5_escape_exactly_once_witness :
    ('{' ∉ strL ("a<b & c")) ∧ ('\n' ∉ strL ("a<b & c")) ∧
    obj_to_html .ytml (.cons (strL ("p")) (.vstr (strL ("a<b & c"))) .nil)
        false ⟨4, 0⟩ =
      .ok (strL ("<p>a&lt;b &amp; c</p>"), ⟨4, 0⟩) := by
  refine ⟨by decide, by decide, ?_⟩
  rw [c5_escape_exactly_once (strL ("a<b & c")) (by decide) (by decide) 4 0]
  rfl

/-! ### Lemmas about the hard-break rewrite -/

theorem replaceBr_cons_default (c : Char) (rest : Str)
    (h : ¬(c = ' ' ∧ ∃ y, rest = ' ' :: '\n' :: y)) :
    replaceBr (c :: rest) = c :: replaceBr rest := by
  rw [replaceBr.eq_def]
  split
  · rename_i heq
    exact absurd heq (List.cons_ne_nil _ _)
  · rename_i rest2 heq
    injection heq with h1 h2
    exact absurd ⟨h1, rest2, h2⟩ h
  · rename_i c2 rest2 hpat2 heq
    injection heq with h1 h2
    subst h1
    subst h2
    rfl

theorem replaceBr_hard_break (y : Str) :
    ∀ (x : Str), '\n' ∉ x → x.getLast? ≠ some ' ' →
      replaceBr (x ++ ' ' :: ' ' :: '\n' :: y) =
        x ++ strL ("<br/>\n") ++ replaceBr y := by
  intro x
  induction x with
  | nil => intro _ _; rfl
  | cons c x' ih =>
    intro hnl hlast
    have hnl' : '\n' ∉ x' := fun hm => hnl (List.mem_cons_of_mem _ hm)
    have hcond : ¬(c = ' ' ∧ ∃ z, x' ++ ' ' :: ' ' :: '\n' :: y = ' ' :: '\n' :: z) := by
      rintro ⟨hc, z, hz⟩
      cases x' with
      | nil => simp at hz
      | cons c2 x'' =>
        injection hz with hz1 hz2
        cases x'' with
        | nil => simp at hz2
        | cons c3 x3 =>
          injection hz2 with hz3 _
          exact hnl' (hz3 ▸ List.mem_cons_of_mem c2 (List.mem_cons_self c3 x3))
    rw [List.cons_append, replaceBr_cons_default c _ hcond]
    cases x' with
    | nil => rfl
    | cons c2 x'' =>
      have hlast' : (c2 :: x'').getLast? ≠ some ' ' := hlast
      rw [ih hnl' hlast']
      simp

theorem replaceBr_soft_break (y : Str) :
    ∀ (x : Str), '\n' ∉ x → x.getLast? ≠ some ' ' →
      replaceBr (x ++ ' ' :: '\n' :: y) = x ++ ' ' :: '\n' :: replaceBr y := by
  intro x
  induction x with
  | nil =>
    intro _ hlast
    rfl
  | cons c x' ih =>
    intro hnl hlast
    have hnl' : '\n' ∉ x' := fun hm => hnl (List.mem_cons_of_mem _ hm)
    have hcond : ¬(c = ' ' ∧ ∃ z, x' ++ ' ' :: '\n' :: y = ' ' :: '\n' :: z) := by
      rintro ⟨hc, z, hz⟩
      cases x' with
      | nil =>
        have hcl : (c :: ([] : Str)).getLast? = some c := rfl
        exact hlast (by rw [hcl, hc])
      | cons c2 x'' =>
        injection hz with hz1 hz2
        cases x'' with
        | nil => simp at hz2
        | cons c3 x3 =>
          injection hz2 with hz3 _
          exact hnl' (hz3 ▸ List.mem_cons_of_mem c2 (List.mem_cons_self c3 x3))
    rw [List.cons_append, replaceBr_cons_default c _ hcond]
    cases x' with
    | nil => rfl
    | cons c2 x'' =>
      have hlast' : (c2 :: x'').getLast? ≠ some ' ' := hlast
      rw [ih hnl' hlast']
      simp

theorem escCharSpec_ne_nil (c : Char) : escCharSpec c ≠ [] := by
  unfold escCharSpec
  split_ifs <;> simp [strL]

theorem escCharSpec_getLast_ne_space {c : Char} (h : c ≠ ' ') :
    (escCharSpec c).getLast? ≠ some ' ' := by
  unfold escCharSpec
  split_ifs <;> first | decide | simp [h]

theorem escape_getLast_ne_space {a : Str} (h : a.getLast? ≠ some ' ') :
    (escape a).getLast? ≠ some ' ' := by
  rcases List.eq_nil_or_concat a with rfl | ⟨b, c, rfl⟩
  · simp [escape, pyReplace1]
  · rw [List.concat_eq_append] at h ⊢
    have hc : c ≠ ' ' := by
      rw [List.getLast?_concat] at h
      exact fun hh => h (by rw [hh])
    rw [escape_append, escape_single,
      List.getLast?_append_of_ne_nil _ (escCharSpec_ne_nil c)]
    exact escCharSpec_getLast_ne_space hc

theorem escape_no_nl {a : Str} (h : '\n' ∉ a) : '\n' ∉ escape a := by
  rw [escape_eq_escSpecMap]
  exact nl_not_mem_escSpecMap h

/-! ### Claim C6 -/

/-- Claim C6: a line of string content that ends with exactly two trailing
spaces before a newline renders that break as `<br/>` followed by a newline,
while a line ending with exactly one trailing space is not converted; the
rewrite runs after escaping, so the emitted `<br/>` appears unescaped in the
output.  `a` is the line's text (newline-free, brace-free, not ending in a
space) and `b` the rest of the string. -/
theorem c6_hard_break (a b : Str) (ha1 : '\n' ∉ a) (hb1 : '\n' ∉ b)
    (ha2 : '{' ∉ a) (hb2 : '{' ∉ b) (hal : a.getLast? ≠ some ' ') (L i : Nat) :
    obj_to_html .ytml
        (.cons (strL ("p")) (.vstr (a ++ strL ("  \n") ++ b)) .nil) false ⟨L, i⟩ =
      .ok (strL ("<p>") ++ escape a ++ strL ("<br/>\n") ++ escape b ++
             strL ("</p>"), ⟨L, i⟩) ∧
    obj_to_html .ytml
        (.cons (strL ("p")) (.vstr (a ++ strL (" \n") ++ b)) .nil) false ⟨L, i⟩ =
      .ok (strL ("<p>") ++ escape a ++ strL (" \n") ++ escape b ++
             strL ("</p>"), ⟨L, i⟩) := by
  have hjs : escape (strL ("  \n")) = strL ("  \n") := rfl
  have hjs1 : escape (strL (" \n")) = strL (" \n") := rfl
  have henl := escape_no_nl ha1
  have heglast := escape_getLast_ne_space hal
  constructor
  · have h1 : '{' ∉ a ++ strL ("  \n") ++ b := by
      simp only [List.mem_append, strL]
      rintro ((hx | hx) | hx)
      · exact ha2 hx
      · simp at hx
      · exact hb2 hx
    rw [render_str_compact, pysubVar_no_brace _ _ h1, escape_append, escape_append,
      hjs]
    have hshape : escape a ++ strL ("  \n") ++ escape b =
        escape a ++ ' ' :: ' ' :: '\n' :: escape b := by
      simp [strL]
    rw [hshape, replaceBr_hard_break _ _ henl heglast,
      replaceBr_no_nl _ (escape_no_nl hb1)]
    simp
  · have h1 : '{' ∉ a ++ strL (" \n") ++ b := by
      simp only [List.mem_append, strL]
      rintro ((hx | hx) | hx)
      · exact ha2 hx
      · simp at hx
      · exact hb2 hx
    rw [render_str_compact, pysubVar_no_brace _ _ h1, escape_append, escape_append,
      hjs1]
    have hshape : escape a ++ strL (" \n") ++ escape b =
        escape a ++ ' ' :: '\n' :: escape b := by
      simp [strL]
    rw [hshape, replaceBr_soft_break _ _ henl heglast,
      replaceBr_no_nl _ (escape_no_nl hb1)]
    simp [strL]

/-- Witness for C6: `ab` + two spaces + newline + `cd` renders content
`ab<br/>\ncd`; with one trailing space the content stays `ab \ncd`. -/
theorem c6_hard_break_witness :
    obj_to_html .ytml
        (.cons (strL ("p")) (.vstr (strL ("ab  \ncd"))) .nil) false ⟨4, 0⟩ =
      .ok (strL ("<p>ab<br/>\ncd</p>"), ⟨4, 0⟩) ∧
    obj_to_html .ytml
        (.cons (strL ("p")) (.vstr (strL ("ab \ncd"))) .nil) false ⟨4, 0⟩ =
      .ok (strL ("<p>ab \ncd</p>"), ⟨4, 0⟩) := by
  have h := c6_hard_break (strL ("ab")) (strL ("cd")) (by decide) (by decide)
    (by decide) (by decide) (by decide) 4 0
  constructor
  · have h1 := h.1
    rw [show strL ("ab") ++ strL ("  \n") ++ strL ("cd") = strL ("ab  \ncd") from rfl]
      at h1
    rw [h1]
    rfl
  · have h2 := h.2
    rw [show strL ("ab") ++ strL (" \n") ++ strL ("cd") = strL ("ab \ncd") from rfl]
      at h2
    rw [h2]
    rfl

/-! ### Lemmas about the template-variable substitution -/

theorem takeWhile_append_all {p : Char → Bool} {a : Str} (b : Str)
    (h : ∀ c ∈ a, p c = true) : (a ++ b).takeWhile p = a ++ b.takeWhile p := by
  induction a with
  | nil => simp
  | cons c a ih =>
    have hc : p c = true := h c (by simp)
    simp only [List.cons_append, List.takeWhile_cons, hc, if_true]
    rw [ih (fun x hx => h x (by simp [hx]))]

theorem tailMatch_ws_append {w : Str} (s2 : Str)
    (hw : ∀ c ∈ w, pyIsSpace c = true) :
    tailMatch (w ++ '}' :: '}' :: s2) = some s2 := by
  unfold tailMatch
  rw [dropWhile_all_append _ hw (by decide)]
  rfl

theorem tailMatch_no_brace {u : Str} (h : '}' ∉ u) : tailMatch u = none := by
  unfold tailMatch
  cases hdw : u.dropWhile pyIsSpace with
  | nil => rfl
  | cons c t =>
    have hcm : c ∈ u :=
      (List.dropWhile_sublist _).subset (hdw ▸ List.mem_cons_self c t)
    have hcne : c ≠ '}' := fun hh => h (hh ▸ hcm)
    split
    · rename_i cont heq
      injection heq with h1 _
      exact absurd h1 hcne
    · rfl

theorem tailMatch_single_brace {s2 : Str} (h : '}' ∉ s2) :
    tailMatch ('}' :: s2) = none := by
  unfold tailMatch
  rw [List.dropWhile_cons_of_neg (by decide)]
  split
  · rename_i cont heq
    injection heq with _ h2
    exact absurd (show ('}' : Char) ∈ s2 from by
      rw [h2]; exact List.mem_cons_self '}' cont) h
  · rfl

theorem findK_of (s : Str) (k : Nat) (cont : Str) (hk1 : 1 ≤ k) :
    ∀ (k0 : Nat), k ≤ k0 →
      (∀ j, k < j → j ≤ k0 → tailMatch (s.drop j) = none) →
      tailMatch (s.drop k) = some cont →
      findK s k0 = some (k, cont) := by
  intro k0
  induction k0 with
  | zero => intro hle _ _; omega
  | succ k0 ih =>
    intro hle hnone hsome
    by_cases heq : k = k0 + 1
    · subst heq
      unfold findK
      rw [hsome]
    · have hlt : k ≤ k0 := by omega
      unfold findK
      rw [hnone (k0 + 1) (by omega) (le_refl _)]
      exact ih hlt (fun j hj1 hj2 => hnone j hj1 (by omega)) hsome

theorem pysubVarGo_append_scan (sd ed : Str) :
    ∀ (s1 : Str) (fuel : Nat) (r : Str), '{' ∉ s1 → s1.length ≤ fuel →
      pysubVarGo sd ed fuel (s1 ++ r) =
        s1 ++ pysubVarGo sd ed (fuel - s1.length) r := by
  intro s1
  induction s1 with
  | nil => intro fuel r _ _; simp
  | cons c s1' ih =>
    intro fuel r hnb hlen
    cases fuel with
    | zero => simp at hlen
    | succ fuel =>
      have hc : c ≠ '{' := fun hh => hnb (hh ▸ List.mem_cons_self c s1')
      have hnb' : '{' ∉ s1' := fun hm => hnb (List.mem_cons_of_mem _ hm)
      have hlen' : s1'.length ≤ fuel := by
        simp only [List.length_cons] at hlen
        omega
      rw [List.cons_append]
      simp only [pysubVarGo, hc, if_false]
      rw [ih fuel r hnb' hlen']
      simp [Nat.succ_sub_succ]

/-- The head of the placeholder: at the two open braces, greedy whitespace,
the non-whitespace name, optional whitespace and the two close braces match,
capturing exactly the name; the scan continues after the close braces. -/
theorem pysubVarGo_placeholder_head (sd ed w1 n w2 s2 : Str)
    (hw1 : ∀ c ∈ w1, pyIsSpace c = true)
    (hw2 : ∀ c ∈ w2, pyIsSpace c = true) (hn0 : n ≠ [])
    (hnw : ∀ c ∈ n, pyIsSpace c = false)
    (hs2 : '{' ∉ s2) (hs2b : '}' ∉ s2) :
    pysubVarGo sd ed ((w1 ++ n ++ w2 ++ '}' :: '}' :: s2).length + 1 + 1)
        ('{' :: '{' :: (w1 ++ n ++ w2 ++ '}' :: '}' :: s2)) =
      sd ++ n ++ ed ++ s2 := by
  obtain ⟨nh, nt, rfl⟩ : ∃ nh nt, n = nh :: nt := by
    cases n with
    | nil => exact absurd rfl hn0
    | cons a l => exact ⟨a, l, rfl⟩
  have hhead : ∀ (rest0 : Str),
      pysubVarGo sd ed (rest0.length + 1 + 1) ('{' :: '{' :: rest0) =
        (match findK (rest0.dropWhile pyIsSpace)
            ((rest0.dropWhile pyIsSpace).takeWhile (fun x => !(pyIsSpace x))).length with
         | some (k, cont) =>
           sd ++ (rest0.dropWhile pyIsSpace).take k ++ ed ++
             pysubVarGo sd ed (rest0.length + 1) cont
         | none => '{' :: pysubVarGo sd ed (rest0.length + 1) ('{' :: rest0)) :=
    fun _ => rfl
  rw [hhead]
  have hnw' : ∀ c ∈ nh :: nt, (fun x => !(pyIsSpace x)) c = true := by
    intro c hc
    simp [hnw c hc]
  have hdw : (w1 ++ (nh :: nt) ++ w2 ++ '}' :: '}' :: s2).dropWhile pyIsSpace =
      (nh :: nt) ++ w2 ++ '}' :: '}' :: s2 := by
    have hx : pyIsSpace nh = false := hnw nh (by simp)
    have hsh : w1 ++ (nh :: nt) ++ w2 ++ '}' :: '}' :: s2 =
        w1 ++ nh :: (nt ++ w2 ++ '}' :: '}' :: s2) := by simp
    rw [hsh, dropWhile_all_append _ hw1 hx]
    simp
  rw [hdw]
  cases w2 with
  | cons cw w2' =>
    have htw : (((nh :: nt) ++ (cw :: w2') ++ '}' :: '}' :: s2).takeWhile
        (fun x => !(pyIsSpace x))) = nh :: nt := by
      have hsh : (nh :: nt) ++ (cw :: w2') ++ '}' :: '}' :: s2 =
          (nh :: nt) ++ cw :: (w2' ++ '}' :: '}' :: s2) := by simp
      rw [hsh]
      exact takeWhile_all_append _ hnw' (by simp [hw2 cw (by simp)])
    rw [htw]
    have hfind : findK ((nh :: nt) ++ (cw :: w2') ++ '}' :: '}' :: s2)
        (nh :: nt).length = some ((nh :: nt).length, s2) := by
      have hlen : (nh :: nt).length = nt.length + 1 := by simp
      rw [hlen]
      unfold findK
      have hdrop : ((nh :: nt) ++ (cw :: w2') ++ '}' :: '}' :: s2).drop
          (nt.length + 1) = (cw :: w2') ++ '}' :: '}' :: s2 := by
        have hsh : (nh :: nt) ++ (cw :: w2') ++ '}' :: '}' :: s2 =
            (nh :: nt) ++ ((cw :: w2') ++ '}' :: '}' :: s2) := by simp
        rw [hsh]
        exact List.drop_left' (by simp)
      rw [hdrop, tailMatch_ws_append s2 hw2]
    have htake : ((nh :: nt) ++ (cw :: w2') ++ '}' :: '}' :: s2).take
        (nh :: nt).length = nh :: nt := by
      have hsh : (nh :: nt) ++ (cw :: w2') ++ '}' :: '}' :: s2 =
          (nh :: nt) ++ ((cw :: w2') ++ '}' :: '}' :: s2) := by simp
      rw [hsh]
      exact List.take_left' rfl
    simp only [hfind]
    rw [htake, pysubVarGo_no_brace sd ed _ s2 hs2]
  | nil =>
    have hsmp : (nh :: nt) ++ ([] : Str) ++ '}' :: '}' :: s2 =
        (nh :: nt) ++ '}' :: '}' :: s2 := by simp
    rw [hsmp]
    have htw : (((nh :: nt) ++ '}' :: '}' :: s2).takeWhile
        (fun x => !(pyIsSpace x))) =
        (nh :: nt) ++ '}' :: '}' :: s2.takeWhile (fun x => !(pyIsSpace x)) := by
      rw [takeWhile_append_all _ hnw']
      have h9 : pyIsSpace '}' = false := by decide
      simp [List.takeWhile_cons, h9]
    rw [htw]
    have hfind : findK ((nh :: nt) ++ '}' :: '}' :: s2)
        ((nh :: nt) ++ '}' :: '}' :: s2.takeWhile (fun x => !(pyIsSpace x))).length =
        some ((nh :: nt).length, s2) := by
      apply findK_of _ _ _ (by simp)
      · simp
      · intro j hj1 hj2
        simp only [List.length_cons] at hj1
        obtain ⟨j', rfl⟩ : ∃ j', j = (nt.length + 1) + j' :=
          ⟨j - (nt.length + 1), by omega⟩
        have hdropj : ((nh :: nt) ++ '}' :: '}' :: s2).drop ((nt.length + 1) + j') =
            ('}' :: '}' :: s2).drop j' := by
          have h0 : (nh :: nt).length = nt.length + 1 := by simp
          rw [← h0]
          exact List.drop_append j'
        rw [hdropj]
        match j', hj1 with
        | 0, h0 => omega
        | 1, _ => exact tailMatch_single_brace hs2b
        | (j3 + 2), _ =>
          have : ('}' :: '}' :: s2).drop (j3 + 2) = s2.drop j3 := rfl
          rw [this]
          exact tailMatch_no_brace
            (fun hm => hs2b ((List.drop_sublist ..).subset hm))
      · have hdropk : ((nh :: nt) ++ '}' :: '}' :: s2).drop (nh :: nt).length =
            '}' :: '}' :: s2 := List.drop_left' rfl
        rw [hdropk]
        rfl
    have htake : ((nh :: nt) ++ '}' :: '}' :: s2).take (nh :: nt).length =
        nh :: nt := List.take_left' rfl
    simp only [hfind]
    rw [htake, pysubVarGo_no_brace sd ed _ s2 hs2]

/-- Substitution of a single placeholder: in a string of the form
`s1 {{ w1 n w2 }} s2` with whitespace runs `w1 w2`, a nonempty
non-whitespace name `n`, no opening brace in `s1` or `s2` and no closing
brace in `s2`, the substitution yields `s1 ++ start ++ n ++ end ++ s2`. -/
theorem pysubVar_placeholder (sd ed s1 w1 n w2 s2 : Str)
    (hs1 : '{' ∉ s1) (hw1 : ∀ c ∈ w1, pyIsSpace c = true)
    (hw2 : ∀ c ∈ w2, pyIsSpace c = true) (hn0 : n ≠ [])
    (hnw : ∀ c ∈ n, pyIsSpace c = false)
    (hs2 : '{' ∉ s2) (hs2b : '}' ∉ s2) :
    pysubVar sd ed (s1 ++ '{' :: '{' :: (w1 ++ n ++ w2 ++ '}' :: '}' :: s2)) =
      s1 ++ sd ++ n ++ ed ++ s2 := by
  unfold pysubVar
  rw [pysubVarGo_append_scan sd ed s1 _ _ hs1
    (by rw [List.length_append]; omega)]
  have hflen : (s1 ++ '{' :: '{' :: (w1 ++ n ++ w2 ++ '}' :: '}' :: s2)).length -
      s1.length = (w1 ++ n ++ w2 ++ '}' :: '}' :: s2).length + 1 + 1 := by
    simp only [List.length_append, List.length_cons]
    omega
  rw [hflen, pysubVarGo_placeholder_head sd ed w1 n w2 s2 hw1 hw2 hn0 hnw hs2 hs2b]
  simp

/-! ### Claim C4 -/

/-- Claim C4: a string value containing a placeholder of the form
`{{ name }}` — any amount of internal whitespace around the name — renders
with the placeholder replaced by the dialect's variable-interpolation
delimiters wrapping the bare name (for the Jinja dialect these delimiters
are inherited from the base class as empty strings), never as literal text,
and the surrounding content, delimiters and name are still HTML-escaped. -/
theorem c4_variable_substitution (s1 w1 n w2 s2 : Str) (L i : Nat)
    (hw1 : ∀ c ∈ w1, pyIsSpace c = true) (hw2 : ∀ c ∈ w2, pyIsSpace c = true)
    (hn0 : n ≠ []) (hnw : ∀ c ∈ n, pyIsSpace c = false)
    (hs1 : '{' ∉ s1) (hs2 : '{' ∉ s2) (hs2b : '}' ∉ s2)
    (hn1 : '\n' ∉ s1) (hn2 : '\n' ∉ s2) :
    obj_to_html .ytmlJinja
        (.cons (strL ("p"))
          (.vstr (s1 ++ strL ("\x7b\x7b") ++ w1 ++ n ++ w2 ++ strL ("\x7d\x7d") ++ s2))
          .nil) false ⟨L, i⟩ =
      .ok (strL ("<p>") ++
             escape (s1 ++ template_variable_start .ytmlJinja ++ n ++
               template_variable_end .ytmlJinja ++ s2) ++ strL ("</p>"), ⟨L, i⟩) := by
  have hshape : s1 ++ strL ("\x7b\x7b") ++ w1 ++ n ++ w2 ++ strL ("\x7d\x7d") ++ s2 =
      s1 ++ '{' :: '{' :: (w1 ++ n ++ w2 ++ '}' :: '}' :: s2) := by
    simp [strL]
  have hnn : '\n' ∉ n := fun hm => absurd (hnw '\n' hm) (by decide)
  have hna : '\n' ∉ s1 ++ template_variable_start .ytmlJinja ++ n ++
      template_variable_end .ytmlJinja ++ s2 := by
    intro hm
    simp only [template_variable_start, template_variable_end, List.append_nil,
      List.mem_append] at hm
    rcases hm with (hm | hm) | hm
    · exact hn1 hm
    · exact hnn hm
    · exact hn2 hm
  rw [render_str_compact, hshape,
    pysubVar_placeholder _ _ s1 w1 n w2 s2 hs1 hw1 hw2 hn0 hnw hs2 hs2b]
  have hsd : (template_variable_start .ytmlJinja : Str) = [] := rfl
  have hed : (template_variable_end .ytmlJinja : Str) = [] := rfl
  rw [hsd, hed] at hna ⊢
  rw [replaceBr_no_nl _ (escape_no_nl hna)]

/-- Witness for C4: `x {{ name }} y` in the Jinja dialect renders with
content `x name y` (the inherited interpolation delimiters are empty),
demonstrating substitution rather than literal emission. -/
theorem c4_variable_substitution_witness :
    obj_to_html .ytmlJinja
        (.cons (strL ("p")) (.vstr (strL ("x \x7b\x7b name \x7d\x7d y"))) .nil)
        false ⟨4, 0⟩ =
      .ok (strL ("<p>x name y</p>"), ⟨4, 0⟩) := by
  have h := c4_variable_substitution (strL ("x ")) (strL (" ")) (strL ("name"))
    (strL (" ")) (strL (" y")) 4 0 (by decide) (by decide) (by decide) (by decide)
    (by decide) (by decide) (by decide) (by decide) (by decide)
  rw [show strL ("x ") ++ strL ("\x7b\x7b") ++ strL (" ") ++ strL ("name") ++
      strL (" ") ++ strL ("\x7d\x7d") ++ strL (" y") =
      strL ("x \x7b\x7b name \x7d\x7d y") from rfl] at h
  rw [h]
  rfl

/-! ### Claim C10 -/

theorem findClose_eval (rest : Str) (j : Nat) (h : closeParenAt rest j = true) :
    findClose rest j = some j := by
  cases j <;> simp [findClose, h]

theorem subClassGo_no_dot (fuel : Nat) :
    ∀ (s : Str), '.' ∉ s → subClassGo fuel s = s := by
  induction fuel with
  | zero => intro s _; rfl
  | succ fuel ih =>
    intro s h
    cases s with
    | nil => rfl
    | cons c rest =>
      have hc : c ≠ '.' := fun hh => h (hh ▸ List.mem_cons_self c rest)
      have hr : '.' ∉ rest := fun hm => h (List.mem_cons_of_mem _ hm)
      simp [subClassGo, hc, ih rest hr]

theorem subIdGo_no_hash (fuel : Nat) :
    ∀ (s : Str), '#' ∉ s → subIdGo fuel s = s := by
  induction fuel with
  | zero => intro s _; rfl
  | succ fuel ih =>
    intro s h
    cases s with
    | nil => rfl
    | cons c rest =>
      have hc : c ≠ '#' := fun hh => h (hh ▸ List.mem_cons_self c rest)
      have hr : '#' ∉ rest := fun hm => h (List.mem_cons_of_mem _ hm)
      simp [subIdGo, hc, ih rest hr]

theorem matchDotStarClose_attr (attr : Str) (h3 : ')' ∉ attr) (h4 : '\n' ∉ attr) :
    matchDotStarClose (attr ++ [')']) = some attr := by
  unfold matchDotStarClose
  have htw : (attr ++ [')']).takeWhile (fun c => c != '\n') = attr ++ [')'] := by
    apply takeWhile_all_self
    intro c hc
    rcases List.mem_append.1 hc with hc | hc
    · have : c ≠ '\n' := fun hh => h4 (hh ▸ hc)
      simp [this]
    · simp at hc
      simp [hc]
  rw [htw]
  have hlen : (attr ++ [')']).length = attr.length + 1 := by simp
  rw [hlen]
  have hc1 : closeParenAt (attr ++ [')']) (attr.length + 1) = false := by
    unfold closeParenAt
    have hd : (attr ++ [')']).drop (attr.length + 1) = [] :=
      List.drop_eq_nil_of_le (by simp)
    rw [hd]
  have hc0 : closeParenAt (attr ++ [')']) attr.length = true := by
    unfold closeParenAt
    rw [List.drop_left' rfl]
    rfl
  unfold findClose
  rw [hc1]
  simp only [Bool.false_eq_true, if_false]
  rw [findClose_eval _ _ hc0]
  show some ((attr ++ [')']).take attr.length) = some attr
  rw [List.take_left' rfl]

theorem reMatchKey_div (attr : Str) (h3 : ')' ∉ attr) (h4 : '\n' ∉ attr) :
    reMatchKey (strL ("div(") ++ attr ++ [')']) =
      some (some (strL ("div")), attr) := by
  have hk : strL ("div(") ++ attr ++ [')'] =
      'd' :: 'i' :: 'v' :: '(' :: (attr ++ [')']) := by simp [strL]
  rw [hk]
  show (matchDotStarClose (attr ++ [')'])).map
      (fun g2 => (some (strL ("div")), g2)) = some (some (strL ("div")), attr)
  rw [matchDotStarClose_attr attr h3 h4]
  rfl

/-- Claim C10: the attribute string captured from the key's parenthesized
part is emitted into the start tag verbatim apart from the shorthand rewrite
and one prefixed space — it is never HTML-escaped — so ampersands, angle
brackets and quotes inside an attribute pass through unescaped, unlike
string content, which is always escaped (second conjunct). -/
theorem c10_attr_verbatim (attr : Str) (h0 : attr ≠ []) (h1 : '.' ∉ attr)
    (h2 : '#' ∉ attr) (h3 : ')' ∉ attr) (h4 : '\n' ∉ attr) (L i : Nat) :
    (obj_to_html .ytml (.cons (strL ("div(") ++ attr ++ [')']) .vnull .nil)
        false ⟨L, i⟩ =
      .ok (strL ("<div ") ++ attr ++ strL ("></div>"), ⟨L, i⟩)) ∧
    obj_to_html .ytml
        (.cons (strL ("div(a=\x22<&>\x22)")) (.vstr (strL ("<&>"))) .nil)
        false ⟨4, 0⟩ =
      .ok (strL ("<div a=\x22<&>\x22>&lt;&amp;&gt;</div>"), ⟨4, 0⟩) := by
  constructor
  · have hmk : reMatchKey ('d' :: 'i' :: 'v' :: '(' :: (attr ++ [')'])) =
        some (some (strL ("div")), attr) := by
      have hk2 : 'd' :: 'i' :: 'v' :: '(' :: (attr ++ [')']) =
          strL ("div(") ++ attr ++ [')'] := by simp [strL]
      rw [hk2]
      exact reMatchKey_div attr h3 h4
    have hsc : subClass attr = attr := subClassGo_no_dot attr.length attr h1
    have hsi : subId attr = attr := subIdGo_no_hash attr.length attr h2
    have hie : attr.isEmpty = false := by
      cases attr with
      | nil => exact absurd rfl h0
      | cons a l => rfl
    have hnil : ∀ (d' : Dialect) (pr : Bool) (f : PrettyFormatter),
        obj_to_html d' .nil pr f = .ok ([], f) := fun _ _ _ => rfl
    have hdv : (['d', 'i', 'v'] : Str) ∉ void_tags := by decide
    have hds : (['d', 'i', 'v'] : Str).head? ≠ some '$' := by decide
    unfold obj_to_html parse_children
    simp [hmk, hsc, hsi, hie, hnil, hdv, hds, h0, parse_dict, init_flags, set_tag_type,
      set_tag_type_html, convert_attr, output_start_tag, is_not_none,
      output_endtag, apply_condition, PrettyFormatter.output_space,
      PrettyFormatter.output_newline, PrettyFormatter.del_indent,
      PrettyFormatter.get_add_indent, html_tag_start, html_tag_end,
      html_tag_end_close, strL]
  · rfl

/-- Witness for C10 at a concrete attribute containing all four sensitive
characters: it is emitted into the start tag unescaped. -/
theorem c10_attr_verbatim_witness :
    obj_to_html .ytml
        (.cons (strL ("div(") ++ strL ("a=\x22<&>\x22") ++ [')']) .vnull .nil)
        false ⟨4, 0⟩ =
      .ok (strL ("<div ") ++ strL ("a=\x22<&>\x22") ++ strL ("></div>"), ⟨4, 0⟩) := by
  exact (c10_attr_verbatim (strL ("a=\x22<&>\x22")) (by decide) (by decide)
    (by decide) (by decide) (by decide) 4 0).1

/-! ### Claim C9: flag-flow lemmas -/

theorem reMatchKey_g1_ne_nil {key t g2 : Str}
    (h : reMatchKey key = some (some t, g2)) : t ≠ [] := by
  intro ht
  subst ht
  unfold reMatchKey at h
  by_cases hie : (key.takeWhile
      (fun c => c != '(' && c != ')' && !(pyIsSpace c))).isEmpty
  · simp only [hie, if_true] at h
    split at h
    · exact Option.noConfusion h
    · rcases Option.map_eq_some'.mp h with ⟨a, _, hfa⟩
      exact Option.noConfusion (congrArg Prod.fst hfa)
    · split at h
      · split at h
        · rcases Option.map_eq_some'.mp h with ⟨a, _, hfa⟩
          exact Option.noConfusion (congrArg Prod.fst hfa)
        · exact Option.noConfusion h
      · exact Option.noConfusion h
  · simp only [hie, if_false] at h
    have hgood : ∀ (a : Str),
        ((key.takeWhile (fun c => c != '(' && c != ')' && !(pyIsSpace c))), a) ≠
          (([] : Str), a) → True := fun _ _ => trivial
    split at h
    · exact Option.noConfusion h
    · rcases Option.map_eq_some'.mp h with ⟨a, _, hfa⟩
      have hp : (key.takeWhile (fun c => c != '(' && c != ')' && !(pyIsSpace c))) =
          [] := by
        have := congrArg Prod.fst hfa
        simpa using this
      rw [hp] at hie
      exact hie rfl
    · split at h
      · split at h
        · rcases Option.map_eq_some'.mp h with ⟨a, _, hfa⟩
          have hp : (key.takeWhile
              (fun c => c != '(' && c != ')' && !(pyIsSpace c))) = [] := by
            have := congrArg Prod.fst hfa
            simpa using this
          rw [hp] at hie
          exact hie rfl
        · exact Option.noConfusion h
      · exact Option.noConfusion h

/-- The fields of the flags record after `parse_dict` on fresh flags: the
formatting flags keep their initial values, and unless the sigil branch was
taken the tag name is nonempty. -/
theorem parse_dict_spec (key : Str) :
    ((parse_dict key init_flags).useindent = true ∧
     (parse_dict key init_flags).usestart = true ∧
     (parse_dict key init_flags).longcontent = false) ∧
    ((parse_dict key init_flags).forcetemplate = false →
     (parse_dict key init_flags).tagname.isEmpty = false) := by
  unfold parse_dict
  cases hmk : reMatchKey key with
  | some pr =>
    obtain ⟨g1, g2⟩ := pr
    dsimp only []
    cases g1 with
    | none =>
      dsimp only []
      rw [if_neg (by decide : ¬(List.head? (strL ("div")) = some '$'))]
      exact ⟨⟨rfl, rfl, rfl⟩, fun _ => rfl⟩
    | some t =>
      dsimp only []
      have ht : t ≠ [] := reMatchKey_g1_ne_nil hmk
      split
      · exact ⟨⟨rfl, rfl, rfl⟩, fun hf => Bool.noConfusion hf⟩
      · refine ⟨⟨rfl, rfl, rfl⟩, fun _ => ?_⟩
        cases t with
        | nil => exact absurd rfl ht
        | cons a l => rfl
  | none =>
    dsimp only []
    by_cases hke : key.isEmpty
    · rw [if_pos hke,
        if_neg (by decide : ¬(List.head? (strL ("div")) = some '$'))]
      exact ⟨⟨rfl, rfl, rfl⟩, fun _ => rfl⟩
    · rw [if_neg hke]
      split
      · exact ⟨⟨rfl, rfl, rfl⟩, fun hf => Bool.noConfusion hf⟩
      · refine ⟨⟨rfl, rfl, rfl⟩, fun _ => ?_⟩
        simpa using hke

theorem set_tag_type_html_ok {flags flags2 : Flags}
    (h : set_tag_type_html flags = .ok flags2) :
    flags2.useindent = flags.useindent ∧ flags2.usestart = flags.usestart ∧
    flags2.longcontent = flags.longcontent ∧
    flags2.starttagname = flags.tagname ∧ flags.forcetemplate = false := by
  unfold set_tag_type_html at h
  split at h
  · exact Except.noConfusion h
  · rename_i hft
    have hft' : flags.forcetemplate = false := by
      cases hf : flags.forcetemplate with
      | true => exact absurd hf hft
      | false => rfl
    split at h <;>
      (injection h with h2; subst h2; exact ⟨rfl, rfl, rfl, rfl, hft'⟩)

theorem convert_attr_fields (flags : Flags) :
    (convert_attr flags).useindent = flags.useindent ∧
    (convert_attr flags).usestart = flags.usestart ∧
    (convert_attr flags).longcontent = flags.longcontent ∧
    (convert_attr flags).starttagname = flags.starttagname ∧
    (convert_attr flags).isvoid = flags.isvoid := by
  unfold convert_attr
  split <;> simp

theorem output_start_tag_ok {value : Value} {flags : Flags} {pretty : Bool}
    {f : PrettyFormatter} {out : Str} {flags2 : Flags}
    (h : output_start_tag value flags pretty f = .ok (out, flags2))
    (hst : flags.starttagname.isEmpty = false) :
    flags2 = flags := by
  unfold output_start_tag at h
  split at h
  · exact Except.noConfusion h
  · simp only [hst, Bool.false_eq_true, not_false_eq_true, if_true] at h
    injection h with h1
    injection h1 with _ h2
    exact h2.symm

/-! ### Claim C9: the balance proof for the base dialect -/

mutual

theorem indent_obj_html : ∀ (obj : ItemList) (pretty : Bool)
    (f : PrettyFormatter) (out : Str) (f' : PrettyFormatter),
    obj_to_html .ytml obj pretty f = .ok (out, f') → f' = f
  | .nil, pretty, f, out, f', h => by
    unfold obj_to_html at h
    injection h with h1
    injection h1 with _ h2
    exact h2.symm
  | .cons key value rest, pretty, f, out, f', h => by
    unfold obj_to_html at h
    dsimp only [] at h
    obtain ⟨⟨hui, hus, hlc⟩, hne⟩ := parse_dict_spec key
    cases hst : set_tag_type .ytml (parse_dict key init_flags) with
    | error e => rw [hst] at h; simp at h
    | ok flags1 =>
      rw [hst] at h
      dsimp only [] at h
      have hst' : set_tag_type_html (parse_dict key init_flags) = .ok flags1 := hst
      obtain ⟨h1ui, h1us, h1lc, h1st, h1ft⟩ := set_tag_type_html_ok hst'
      obtain ⟨h2ui, h2us, h2lc, h2st, h2vd⟩ := convert_attr_fields flags1
      cases hos : output_start_tag value (convert_attr flags1) pretty f with
      | error e => rw [hos] at h; simp at h
      | ok pr =>
        obtain ⟨out1, flags2⟩ := pr
        rw [hos] at h
        dsimp only [] at h
        have hstne : (convert_attr flags1).starttagname.isEmpty = false := by
          rw [h2st, h1st]
          exact hne h1ft
        have hfeq : flags2 = convert_attr flags1 := output_start_tag_ok hos hstne
        subst hfeq
        by_cases hv : (convert_attr flags1).isvoid = true
        · rw [if_pos hv] at h
          cases hr : obj_to_html .ytml rest pretty f with
          | error e => rw [hr] at h; simp at h
          | ok pr2 =>
            obtain ⟨outR, f2⟩ := pr2
            rw [hr] at h
            dsimp only [] at h
            injection h with h1
            injection h1 with _ h2
            rw [← h2]
            exact indent_obj_html rest pretty f outR f2 hr
        · rw [if_neg hv] at h
          cases hpc : parse_children .ytml value (convert_attr flags1) pretty f with
          | error e => rw [hpc] at h; simp at h
          | ok pr3 =>
            obtain ⟨out2, fl, f2⟩ := pr3
            rw [hpc] at h
            dsimp only [] at h
            have hcui : (convert_attr flags1).useindent = true := by
              rw [h2ui, h1ui]; exact hui
            have hcus : (convert_attr flags1).usestart = true := by
              rw [h2us, h1us]; exact hus
            have hclc : (convert_attr flags1).longcontent = false := by
              rw [h2lc, h1lc]; exact hlc
            have hdel := indent_children_html value pretty (convert_attr flags1)
              f out2 fl f2 hcui hcus hclc hpc
            have h32 : (output_endtag fl pretty f2).2 =
                f2.del_indent [pretty, fl.longcontent, fl.useindent] := rfl
            cases het : output_endtag fl pretty f2 with
            | mk out3 f3 =>
              rw [het] at h
              dsimp only [] at h
              have hf3 : f3 = f := by
                have hsnd : f2.del_indent [pretty, fl.longcontent, fl.useindent] =
                    f3 := by
                  rw [← h32, het]
                rw [← hsnd]
                exact hdel
              cases hr : obj_to_html .ytml rest pretty f3 with
              | error e => rw [hr] at h; simp at h
              | ok pr4 =>
                obtain ⟨outR, f4⟩ := pr4
                rw [hr] at h
                dsimp only [] at h
                injection h with h1
                injection h1 with _ h2
                rw [← h2, indent_obj_html rest pretty f3 outR f4 hr]
                exact hf3

theorem indent_children_html : ∀ (value : Value) (pretty : Bool) (flags : Flags)
    (f : PrettyFormatter) (out : Str) (fl : Flags) (f2 : PrettyFormatter),
    flags.useindent = true → flags.usestart = true → flags.longcontent = false →
    parse_children .ytml value flags pretty f = .ok (out, fl, f2) →
    f2.del_indent [pretty, fl.longcontent, fl.useindent] = f
  | .vnull, pretty, flags, f, out, fl, f2, hui, hus, hlc, h => by
    unfold parse_children at h
    injection h with h1
    injection h1 with _ hb
    injection hb with hc hd
    subst hc
    subst hd
    simp [PrettyFormatter.del_indent, apply_condition, hlc]
  | .vstr s, pretty, flags, f, out, fl, f2, hui, hus, hlc, h => by
    unfold parse_children at h
    dsimp only [] at h
    split at h
    · injection h with h1
      injection h1 with _ hb
      injection hb with hc hd
      subst hc
      subst hd
      cases pretty <;>
        simp [PrettyFormatter.add_indent, PrettyFormatter.del_indent,
          apply_condition, hui]
    · injection h with h1
      injection h1 with _ hb
      injection hb with hc hd
      subst hc
      subst hd
      simp [PrettyFormatter.del_indent, apply_condition, hlc]
  | .vlist l, pretty, flags, f, out, fl, f2, hui, hus, hlc, h => by
    unfold parse_children at h
    dsimp only [] at h
    simp only [hui, hus] at h
    cases hr : obj_to_html .ytml l pretty (f.add_indent [pretty, true, true]) with
    | error e => rw [hr] at h; simp at h
    | ok pr =>
      obtain ⟨outc, fc⟩ := pr
      rw [hr] at h
      dsimp only [] at h
      injection h with h1
      injection h1 with _ hb
      injection hb with hc hd
      subst hc
      subst hd
      rw [indent_obj_html l pretty (f.add_indent [pretty, true, true]) outc fc hr]
      cases pretty <;>
        simp [PrettyFormatter.add_indent, PrettyFormatter.del_indent,
          apply_condition, hui]

end

/-! ### Claim C9: verdict -/

/-- Counterexample to claim C9: in the Jinja dialect an `else` directive with
multi-line string content performs `add_indent([pretty])` but the matching
`del_indent` is gated on `useindent`, which is false for `else`, so a
successful conversion exits with the shared formatter's indent at 1 instead
of the entry value 0. -/
theorem c9_counterexample :
    obj_to_html .ytmlJinja
        (.cons (strL ("else")) (.vstr (strL ("a\nb"))) .nil) true ⟨4, 0⟩ =
      .ok (strL ("\x7b% else %\x7d\n    a\n    b\n\n"), ⟨4, 1⟩) ∧
    (1 : Nat) ≠ 0 := by
  exact ⟨rfl, by decide⟩

/-- Claim C9 (amended): for the base HTML dialect, every successful
`obj_to_html` call leaves the shared formatter's indentation exactly where it
started — each `add_indent` performed for children or multi-line content is
matched by the `del_indent` in `output_endtag` — so sibling elements render
at identical indentation. -/
theorem c9_indent_balanced (obj : ItemList) (pretty : Bool) (L i : Nat)
    (out : Str) (f' : PrettyFormatter)
    (h : obj_to_html .ytml obj pretty ⟨L, i⟩ = .ok (out, f')) :
    f'.indent = i := by
  rw [indent_obj_html obj pretty ⟨L, i⟩ out f' h]

/-- Witness for the amended C9 at a concrete one-element tree in pretty
mode: the formatter returns to indent 0. -/
theorem c9_indent_balanced_witness :
    obj_to_html .ytml (.cons (strL ("p")) (.vstr (strL ("x"))) .nil) true ⟨4, 0⟩ =
      .ok (strL ("<p>x</p>\n"), ⟨4, 0⟩) ∧
    (⟨4, 0⟩ : PrettyFormatter).indent = 0 :=
  ⟨rfl, c9_indent_balanced (.cons (strL ("p")) (.vstr (strL ("x"))) .nil) true 4 0
    (strL ("<p>x</p>\n")) ⟨4, 0⟩ rfl⟩

/-! ### Claim C8: whitespace-deletion lemmas -/

theorem stripWs_append (a b : Str) : stripWs (a ++ b) = stripWs a ++ stripWs b :=
  List.filter_append ..

theorem stripWs_nil : stripWs [] = [] := rfl

theorem stripWs_nl : stripWs (['\n'] : Str) = [] := rfl

theorem stripWs_output_space (f : PrettyFormatter) (conds : List Bool) (lvl : Int) :
    stripWs (f.output_space conds lvl) = [] := by
  unfold PrettyFormatter.output_space stripWs
  split
  · rw [List.filter_replicate]
    simp [pyIsSpace]
  · rfl

theorem stripWs_output_newline (f : PrettyFormatter) (conds : List Bool) :
    stripWs (f.output_newline conds) = [] := by
  unfold PrettyFormatter.output_newline
  split <;> rfl

theorem splitNl_ne_nil : ∀ (s : Str), splitNl s ≠ []
  | [] => by simp [splitNl]
  | c :: rest => by
    unfold splitNl
    split
    · simp
    · split <;> simp

theorem stripWs_cons_space {c : Char} (h : pyIsSpace c = true) (s : Str) :
    stripWs (c :: s) = stripWs s := by
  simp [stripWs, List.filter_cons, h]

theorem stripWs_cons_nonspace {c : Char} (h : pyIsSpace c = false) (s : Str) :
    stripWs (c :: s) = c :: stripWs s := by
  simp [stripWs, List.filter_cons, h]

theorem stripWs_catLines_splitNl (f : PrettyFormatter) :
    ∀ (s : Str),
      stripWs (catLines
        (fun line => f.output_space [] (-1) ++ line ++ ['\n']) (splitNl s)) =
        stripWs s := by
  intro s
  induction s with
  | nil =>
    have h1 : splitNl ([] : Str) = [[]] := rfl
    have h2 : catLines (fun line => f.output_space [] (-1) ++ line ++ ['\n'])
        [[]] = f.output_space [] (-1) ++ [] ++ ['\n'] := by
      simp [catLines]
    rw [h1, h2, stripWs_append, stripWs_append, stripWs_output_space]
    rfl
  | cons c rest ih =>
    by_cases hc : c = '\n'
    · subst hc
      have hsp : splitNl ('\n' :: rest) = [] :: splitNl rest := by
        simp [splitNl]
      rw [hsp]
      have hcat : catLines (fun line => f.output_space [] (-1) ++ line ++ ['\n'])
          ([] :: splitNl rest) =
          (f.output_space [] (-1) ++ [] ++ ['\n']) ++
            catLines (fun line => f.output_space [] (-1) ++ line ++ ['\n'])
              (splitNl rest) := rfl
      rw [hcat, stripWs_append, stripWs_append, stripWs_append,
        stripWs_output_space, ih, stripWs_cons_space (by decide)]
      simp [stripWs, pyIsSpace]
    · cases hsp : splitNl rest with
      | nil => exact absurd hsp (splitNl_ne_nil rest)
      | cons p ps =>
        have hsp2 : splitNl (c :: rest) = (c :: p) :: ps := by
          simp only [splitNl, hc, if_false, hsp]
        rw [hsp2]
        have hcat : catLines (fun line => f.output_space [] (-1) ++ line ++ ['\n'])
            ((c :: p) :: ps) =
            (f.output_space [] (-1) ++ (c :: p) ++ ['\n']) ++
              catLines (fun line => f.output_space [] (-1) ++ line ++ ['\n'])
                ps := rfl
        have hcat2 : catLines (fun line => f.output_space [] (-1) ++ line ++ ['\n'])
            (p :: ps) =
            (f.output_space [] (-1) ++ p ++ ['\n']) ++
              catLines (fun line => f.output_space [] (-1) ++ line ++ ['\n'])
                ps := rfl
        rw [hsp, hcat2] at ih
        rw [hcat]
        simp only [stripWs_append] at ih ⊢
        rw [stripWs_output_space] at ih ⊢
        cases hpy : pyIsSpace c with
        | true =>
          rw [stripWs_cons_space hpy, stripWs_cons_space hpy]
          simp only [stripWs_nl, List.nil_append, List.append_nil,
            List.append_assoc] at ih ⊢
          exact ih
        | false =>
          rw [stripWs_cons_nonspace hpy, stripWs_cons_nonspace hpy]
          simp only [stripWs_nl, List.nil_append, List.append_nil,
            List.append_assoc, List.cons_append] at ih ⊢
          rw [ih]

theorem filter_dropWhile_pyIsSpace (s : Str) :
    (s.dropWhile pyIsSpace).filter (fun c => !(pyIsSpace c)) =
      s.filter (fun c => !(pyIsSpace c)) := by
  induction s with
  | nil => rfl
  | cons c rest ih =>
    by_cases hc : pyIsSpace c = true
    · rw [List.dropWhile_cons_of_pos hc, ih, List.filter_cons]
      simp [hc]
    · have hc' : pyIsSpace c = false := by
        cases hpy : pyIsSpace c with
        | true => exact absurd hpy hc
        | false => rfl
      rw [List.dropWhile_cons_of_neg (by simp [hc'])]

theorem stripWs_pyStrip (s : Str) : stripWs (pyStrip s) = stripWs s := by
  unfold pyStrip stripWs
  rw [List.filter_reverse, filter_dropWhile_pyIsSpace, List.filter_reverse,
    List.reverse_reverse, filter_dropWhile_pyIsSpace]

theorem stripWs_indented_text (f : PrettyFormatter) (text : Str)
    (conds : List Bool) :
    stripWs (f.output_indented_text text conds) = stripWs text := by
  unfold PrettyFormatter.output_indented_text
  split
  · rw [stripWs_catLines_splitNl, stripWs_pyStrip]
  · rfl

theorem output_start_tag_strip (value : Value) (flags : Flags)
    (f1 f2 : PrettyFormatter) :
    (output_start_tag value flags true f1).map (fun p => (stripWs p.1, p.2)) =
    (output_start_tag value flags false f2).map (fun p => (stripWs p.1, p.2)) := by
  unfold output_start_tag
  by_cases hc : flags.isvoid = true ∧ is_not_none value = true
  · rw [if_pos hc, if_pos hc]
  · rw [if_neg hc, if_neg hc]
    by_cases hv : flags.isvoid = true <;>
      by_cases hst : flags.starttagname.isEmpty = true <;>
        simp [hv, hst, Except.map, stripWs_append, stripWs_output_space,
          stripWs_output_newline, stripWs_nil]

theorem output_endtag_strip (fl : Flags) (f1 f2 : PrettyFormatter) :
    stripWs (output_endtag fl true f1).1 = stripWs (output_endtag fl false f2).1 := by
  unfold output_endtag
  by_cases h : fl.endtagname.isEmpty = true <;>
    simp [h, stripWs_append, stripWs_output_space, stripWs_output_newline]

/-! ### Claim C8: the mutual strip equivalence -/

mutual

theorem strip_obj : ∀ (d : Dialect) (obj : ItemList) (f1 f2 : PrettyFormatter),
    (obj_to_html d obj true f1).map (fun p => stripWs p.1) =
    (obj_to_html d obj false f2).map (fun p => stripWs p.1)
  | d, .nil, f1, f2 => rfl
  | d, .cons key value rest, f1, f2 => by
    unfold obj_to_html
    dsimp only []
    cases hst : set_tag_type d (parse_dict key init_flags) with
    | error e => rfl
    | ok flags1 =>
      dsimp only []
      have hos := output_start_tag_strip value (convert_attr flags1) f1 f2
      cases hosp : output_start_tag value (convert_attr flags1) true f1 with
      | error e1 =>
        cases hosc : output_start_tag value (convert_attr flags1) false f2 with
        | error e2 =>
          rw [hosp, hosc] at hos
          simp only [Except.map] at hos
          injection hos with he
          subst he
          rfl
        | ok pc =>
          rw [hosp, hosc] at hos
          exact absurd hos (by simp [Except.map])
      | ok pp =>
        obtain ⟨out1p, flags2p⟩ := pp
        cases hosc : output_start_tag value (convert_attr flags1) false f2 with
        | error e2 =>
          rw [hosp, hosc] at hos
          exact absurd hos (by simp [Except.map])
        | ok pc =>
          obtain ⟨out1c, flags2c⟩ := pc
          rw [hosp, hosc] at hos
          simp only [Except.map] at hos
          injection hos with hpair
          have hout1 : stripWs out1p = stripWs out1c := congrArg Prod.fst hpair
          have hfl2 : flags2p = flags2c := congrArg Prod.snd hpair
          subst hfl2
          dsimp only []
          by_cases hv : flags2p.isvoid = true
          · rw [if_pos hv, if_pos hv]
            have hr := strip_obj d rest f1 f2
            cases hrp : obj_to_html d rest true f1 with
            | error e1 =>
              cases hrc : obj_to_html d rest false f2 with
              | error e2 =>
                rw [hrp, hrc] at hr
                simp only [Except.map] at hr
                injection hr with he
                subst he
                rfl
              | ok pc2 =>
                rw [hrp, hrc] at hr
                exact absurd hr (by simp [Except.map])
            | ok pp2 =>
              obtain ⟨outRp, fp⟩ := pp2
              cases hrc : obj_to_html d rest false f2 with
              | error e2 =>
                rw [hrp, hrc] at hr
                exact absurd hr (by simp [Except.map])
              | ok pc2 =>
                obtain ⟨outRc, fc⟩ := pc2
                rw [hrp, hrc] at hr
                simp only [Except.map] at hr
                injection hr with hpair2
                simp only [Except.map, stripWs_append, hout1, hpair2]
          · rw [if_neg hv, if_neg hv]
            have hpc := strip_children d value flags2p f1 f2
            cases hpcp : parse_children d value flags2p true f1 with
            | error e1 =>
              cases hpcc : parse_children d value flags2p false f2 with
              | error e2 =>
                rw [hpcp, hpcc] at hpc
                simp only [Except.map] at hpc
                injection hpc with he
                subst he
                rfl
              | ok pc3 =>
                rw [hpcp, hpcc] at hpc
                exact absurd hpc (by simp [Except.map])
            | ok pp3 =>
              obtain ⟨out2p, flp, ffp⟩ := pp3
              cases hpcc : parse_children d value flags2p false f2 with
              | error e2 =>
                rw [hpcp, hpcc] at hpc
                exact absurd hpc (by simp [Except.map])
              | ok pc3 =>
                obtain ⟨out2c, flc, ffc⟩ := pc3
                rw [hpcp, hpcc] at hpc
                simp only [Except.map] at hpc
                injection hpc with hpair3
                have hout2 : stripWs out2p = stripWs out2c := by
                  have := congrArg Prod.fst hpair3
                  simpa using this
                have hfl : flp = flc := by
                  have := congrArg Prod.snd hpair3
                  simpa using this
                subst hfl
                dsimp only []
                cases hetp : output_endtag flp true ffp with
                | mk out3p f3p =>
                  cases hetc : output_endtag flp false ffc with
                  | mk out3c f3c =>
                    have hout3 : stripWs out3p = stripWs out3c := by
                      have h1 := output_endtag_strip flp ffp ffc
                      rw [hetp, hetc] at h1
                      exact h1
                    dsimp only []
                    have hr := strip_obj d rest f3p f3c
                    cases hrp : obj_to_html d rest true f3p with
                    | error e1 =>
                      cases hrc : obj_to_html d rest false f3c with
                      | error e2 =>
                        rw [hrp, hrc] at hr
                        simp only [Except.map] at hr
                        injection hr with he
                        subst he
                        rfl
                      | ok pc4 =>
                        rw [hrp, hrc] at hr
                        exact absurd hr (by simp [Except.map])
                    | ok pp4 =>
                      obtain ⟨outRp, fp⟩ := pp4
                      cases hrc : obj_to_html d rest false f3c with
                      | error e2 =>
                        rw [hrp, hrc] at hr
                        exact absurd hr (by simp [Except.map])
                      | ok pc4 =>
                        obtain ⟨outRc, fc⟩ := pc4
                        rw [hrp, hrc] at hr
                        simp only [Except.map] at hr
                        injection hr with hpair4
                        simp only [Except.map, stripWs_append, hout1, hout2,
                          hout3, hpair4]

theorem strip_children : ∀ (d : Dialect) (v : Value) (flags : Flags)
    (f1 f2 : PrettyFormatter),
    (parse_children d v flags true f1).map (fun p => (stripWs p.1, p.2.1)) =
    (parse_children d v flags false f2).map (fun p => (stripWs p.1, p.2.1))
  | d, .vnull, flags, f1, f2 => rfl
  | d, .vstr s, flags, f1, f2 => by
    unfold parse_children
    dsimp only []
    cases hcv : (replaceBr (escape (pysubVar (template_variable_start d)
        (template_variable_end d) s))).contains '\n' with
    | true =>
      simp only [hcv, if_true]
      simp [Except.map, stripWs_append, stripWs_output_newline,
        stripWs_indented_text]
    | false =>
      simp only [hcv, Bool.false_eq_true, if_false]
      simp [Except.map, stripWs_append, stripWs_output_newline,
        stripWs_indented_text]
  | d, .vlist l, flags, f1, f2 => by
    unfold parse_children
    dsimp only []
    have hr := strip_obj d l (f1.add_indent [true, flags.useindent, flags.usestart])
      (f2.add_indent [false, flags.useindent, flags.usestart])
    cases hrp : obj_to_html d l true
        (f1.add_indent [true, flags.useindent, flags.usestart]) with
    | error e1 =>
      cases hrc : obj_to_html d l false
          (f2.add_indent [false, flags.useindent, flags.usestart]) with
      | error e2 =>
        rw [hrp, hrc] at hr
        simp only [Except.map] at hr
        injection hr with he
        subst he
        rfl
      | ok pc =>
        rw [hrp, hrc] at hr
        exact absurd hr (by simp [Except.map])
    | ok pp =>
      obtain ⟨outp, fp⟩ := pp
      cases hrc : obj_to_html d l false
          (f2.add_indent [false, flags.useindent, flags.usestart]) with
      | error e2 =>
        rw [hrp, hrc] at hr
        exact absurd hr (by simp [Except.map])
      | ok pc =>
        obtain ⟨outc, fc⟩ := pc
        rw [hrp, hrc] at hr
        simp only [Except.map] at hr
        injection hr with hpair
        simp only [Except.map, stripWs_append, stripWs_output_newline, hpair]

end

/-! ### Claim C8: verdict -/

/-- Claim C8: for every input tree on which conversion succeeds, pretty-mode
and compact-mode output differ only in whitespace: deleting all whitespace
characters from both outputs yields identical character sequences. -/
theorem c8_pretty_compact_equiv (d : Dialect) (obj : ItemList)
    (f1 f2 : PrettyFormatter) (o1 o2 : Str) (g1 g2 : PrettyFormatter)
    (h1 : obj_to_html d obj true f1 = .ok (o1, g1))
    (h2 : obj_to_html d obj false f2 = .ok (o2, g2)) :
    stripWs o1 = stripWs o2 := by
  have h := strip_obj d obj f1 f2
  rw [h1, h2] at h
  simp only [Except.map] at h
  injection h

/-- Witness for C8 at a one-element tree: pretty output `<p>x</p>` plus
newline and compact output `<p>x</p>` agree after whitespace deletion. -/
theorem c8_pretty_compact_equiv_witness :
    obj_to_html .ytml (.cons (strL ("p")) (.vstr (strL ("x"))) .nil) true ⟨4, 0⟩ =
      .ok (strL ("<p>x</p>\n"), ⟨4, 0⟩) ∧
    obj_to_html .ytml (.cons (strL ("p")) (.vstr (strL ("x"))) .nil) false ⟨2, 7⟩ =
      .ok (strL ("<p>x</p>"), ⟨2, 7⟩) ∧
    stripWs (strL ("<p>x</p>\n")) = stripWs (strL ("<p>x</p>")) :=
  ⟨rfl, rfl,
    c8_pretty_compact_equiv .ytml (.cons (strL ("p")) (.vstr (strL ("x"))) .nil)
      ⟨4, 0⟩ ⟨2, 7⟩ (strL ("<p>x</p>\n")) (strL ("<p>x</p>")) ⟨4, 0⟩ ⟨2, 7⟩ rfl rfl⟩

end TestYTML
